import Mathlib

/-!
Shallow embedding of the Book_Shelf domain state engine
(`BookExchangeContext` provider and the `Messages` page grouping logic).

Data model: `User`, `Book`, `Message` mirror the TypeScript interfaces.
Timestamps (`createdAt`, produced by `Date.now()` / `new Date().toISOString()`)
are modelled as natural numbers (milliseconds since epoch); ids generated from
`Date.now().toString()` are modelled by `toString now` where `now : Nat` is an
explicit parameter.  `toast` notifications that report failures are modelled as
an `Option EngineError` result component; operations that show no failure toast
return `none`.  JavaScript's stable `Array.prototype.sort` with a numeric
comparator is modelled by the stable insertion sort `sortByDesc`.
-/

namespace BookShelf

inductive UserRole where
  | owner
  | seeker
deriving DecidableEq, Repr

structure User where
  id : String
  name : String
  email : String
  password : String
  phone : String
  role : UserRole
deriving DecidableEq, Repr

structure Book where
  id : String
  title : String
  author : String
  genre : Option String
  location : String
  contact : String
  ownerId : String
  ownerName : String
  available : Bool
  coverUrl : Option String
  createdAt : Nat
deriving DecidableEq, Repr

structure Message where
  id : String
  senderId : String
  senderName : String
  receiverId : String
  bookId : String
  bookTitle : String
  content : String
  isRequest : Bool
  isRead : Bool
  createdAt : Nat
deriving DecidableEq, Repr

/-- The shared engine state: the four collections held by the provider. -/
structure State where
  users : List User
  books : List Book
  messages : List Message
  currentUser : Option User
deriving DecidableEq, Repr

/-- Failure conditions reported through destructive toasts in the source. -/
inductive EngineError where
  | duplicateEmail
  | invalidCredentials
  | unauthenticated
  | notFoundOrForbidden
  | bookNotFound
  | requestNotFound
deriving DecidableEq, Repr

/-- First seed user from `initialUsers` in the source. -/
def johnUser : User :=
  { id := "1", name := "John Doe", email := "john@example.com",
    password := "password123", phone := "555-123-4567", role := .owner }

/-- Second seed user from `initialUsers` in the source. -/
def janeUser : User :=
  { id := "2", name := "Jane Smith", email := "jane@example.com",
    password := "password123", phone := "555-987-6543", role := .seeker }

/-- Seed users from `initialUsers` in the source. -/
def initialUsers : List User := [johnUser, janeUser]

/-- Initial state when no snapshot exists: seed users, empty books and
messages, no active session. -/
def initialState : State :=
  { users := initialUsers, books := [], messages := [], currentUser := none }

/-- The input of `registerUser` (`Omit<User, "id">`). -/
structure UserData where
  name : String
  email : String
  password : String
  phone : String
  role : UserRole
deriving DecidableEq, Repr

/-- Model of `registerUser`: rejects a duplicate email, otherwise appends a fresh user
(with id `Date.now().toString()`) and makes it the active session. -/
def registerUser (now : Nat) (d : UserData) (s : State) : State × Option EngineError :=
  if s.users.any (fun u => u.email == d.email) then
    (s, some .duplicateEmail)
  else
    let newUser : User :=
      { id := toString now, name := d.name, email := d.email,
        password := d.password, phone := d.phone, role := d.role }
    ({ s with users := s.users ++ [newUser], currentUser := some newUser }, none)

/-- Model of `loginUser`: finds a user whose email and password both match; on success
sets the session and returns `true`, otherwise returns `false`. -/
def loginUser (email password : String) (s : State) : State × Bool :=
  match s.users.find? (fun u => u.email == email && u.password == password) with
  | some u => ({ s with currentUser := some u }, true)
  | none => (s, false)

/-- Model of `logoutUser`: clears the session unconditionally. -/
def logoutUser (s : State) : State :=
  { s with currentUser := none }

/-- The per-book function mapped over the store by `toggleBookAvailability`:
negate `available` on the book with the given id owned by `uid`. -/
def toggleStep (bookId uid : String) (book : Book) : Book :=
  if book.id == bookId && book.ownerId == uid then
    { book with available := !book.available }
  else book

/-- Model of `toggleBookAvailability`: hard-fails without a session; otherwise maps
`toggleStep` over the books (a no-op when no book matches). -/
def toggleBookAvailability (bookId : String) (s : State) : State × Option EngineError :=
  match s.currentUser with
  | none => (s, some .unauthenticated)
  | some u =>
    ({ s with books := s.books.map (toggleStep bookId u.id) }, none)

/-- Model of `deleteBook`: fails without a session; fails when the book is missing or
owned by someone else; otherwise removes the book (messages untouched). -/
def deleteBook (bookId : String) (s : State) : State × Option EngineError :=
  match s.currentUser with
  | none => (s, some .unauthenticated)
  | some u =>
    match s.books.find? (fun b => b.id == bookId) with
    | none => (s, some .notFoundOrForbidden)
    | some book =>
      if book.ownerId != u.id then (s, some .notFoundOrForbidden)
      else ({ s with books := s.books.filter (fun b => b.id != bookId) }, none)

/-- ASCII model of JavaScript `toLowerCase()` applied to a string, as the
character list it acts on. -/
def lowerL (s : String) : List Char := s.data.map Char.toLower

/-- Model of `String.prototype.startsWith` on character lists. -/
def startsWithL : List Char → List Char → Bool
  | [], _ => true
  | _ :: _, [] => false
  | a :: as, b :: bs => a == b && startsWithL as bs

/-- Model of JavaScript `String.prototype.includes`: does `needle` occur as a
contiguous subsequence of the second argument? -/
def containsSeq (needle : List Char) : List Char → Bool
  | [] => needle.isEmpty
  | c :: rest => startsWithL needle (c :: rest) || containsSeq needle rest

/-- The filter predicate of `filterBooksBySearch`: case-insensitive substring
match over title, author, genre and location.  The genre clause reproduces
JavaScript truthiness of `book.genre && …`: an absent or empty genre
short-circuits to false. -/
def searchPred (lowerSearch : List Char) (book : Book) : Bool :=
  containsSeq lowerSearch (lowerL book.title) ||
  containsSeq lowerSearch (lowerL book.author) ||
  (match book.genre with
   | some g => g != "" && containsSeq lowerSearch (lowerL g)
   | none => false) ||
  containsSeq lowerSearch (lowerL book.location)

/-- Model of `filterBooksBySearch`: lowercases the query once and filters the store. -/
def filterBooksBySearch (search : String) (s : State) : List Book :=
  s.books.filter (searchPred (lowerL search))

/-- Model of `sendMessage`: requires a session and an existing book; appends a fresh
message with `isRead := false` and denormalized sender name and book title. -/
def sendMessage (now : Nat) (receiverId bookId content : String) (isRequest : Bool)
    (s : State) : State × Option EngineError :=
  match s.currentUser with
  | none => (s, some .unauthenticated)
  | some u =>
    match s.books.find? (fun b => b.id == bookId) with
    | none => (s, some .bookNotFound)
    | some book =>
      let newMessage : Message :=
        { id := toString now, senderId := u.id, senderName := u.name,
          receiverId := receiverId, bookId := bookId, bookTitle := book.title,
          content := content, isRequest := isRequest, isRead := false,
          createdAt := now }
      ({ s with messages := s.messages ++ [newMessage] }, none)

/-- Stable insertion into a list sorted descending by `key`: the new element
goes before the first element whose key is not greater than its own. -/
def insertByDesc {α : Type} (key : α → Nat) (x : α) : List α → List α
  | [] => [x]
  | y :: ys => if key x < key y then y :: insertByDesc key x ys else x :: y :: ys

/-- Stable sort, descending by `key`: the model of JavaScript's stable
`Array.prototype.sort` with comparator `(a, b) => key(b) - key(a)`. -/
def sortByDesc {α : Type} (key : α → Nat) (l : List α) : List α :=
  l.foldr (insertByDesc key) []

/-- Model of `getMessagesForUser`: all messages the session user sent or received,
sorted newest-first by `createdAt`. -/
def getMessagesForUser (s : State) : List Message :=
  match s.currentUser with
  | none => []
  | some u =>
    sortByDesc (fun m => m.createdAt)
      (s.messages.filter (fun m => m.senderId == u.id || m.receiverId == u.id))

/-- The per-message function mapped over the store by `markMessageAsRead`:
set `isRead` on the message with the given id when `uid` is its receiver. -/
def markStep (messageId uid : String) (m : Message) : Message :=
  if m.id == messageId && m.receiverId == uid then { m with isRead := true }
  else m

/-- Model of `markMessageAsRead`: silently returns without a session; otherwise maps
`markStep` over the messages. -/
def markMessageAsRead (messageId : String) (s : State) : State × Option EngineError :=
  match s.currentUser with
  | none => (s, none)
  | some u =>
    ({ s with messages := s.messages.map (markStep messageId u.id) }, none)

/-- Model of `getUnreadMessagesCount`: unread messages addressed to the session user. -/
def getUnreadMessagesCount (s : State) : Nat :=
  match s.currentUser with
  | none => 0
  | some u =>
    (s.messages.filter (fun m => m.receiverId == u.id && !m.isRead)).length

/-- The per-book function mapped over the store by `acceptBookRequest`: clear
`available` on the book with the given id. -/
def reserveStep (bookId : String) (book : Book) : Book :=
  if book.id == bookId then { book with available := false } else book

/-- Model of `acceptBookRequest`: requires a session and a request message addressed to
it; then marks the referenced book unavailable and appends the acceptance
message to the original requester, as one operation. -/
def acceptBookRequest (now : Nat) (messageId : String) (s : State) :
    State × Option EngineError :=
  match s.currentUser with
  | none => (s, some .unauthenticated)
  | some u =>
    match s.messages.find? (fun m =>
        m.id == messageId && m.isRequest && m.receiverId == u.id) with
    | none => (s, some .requestNotFound)
    | some requestMessage =>
      let acceptanceMessage : Message :=
        { id := toString now, senderId := u.id, senderName := u.name,
          receiverId := requestMessage.senderId,
          bookId := requestMessage.bookId,
          bookTitle := requestMessage.bookTitle,
          content := "Your request for \"" ++ requestMessage.bookTitle ++
            "\" has been accepted! The book will be delivered to you soon.",
          isRequest := false, isRead := false, createdAt := now }
      ({ s with
          books := s.books.map (reserveStep requestMessage.bookId),
          messages := s.messages ++ [acceptanceMessage] }, none)

/-- One entry of the conversation list built by the `Messages` page. -/
structure Conversation where
  partnerId : String
  partnerName : String
  bookId : String
  bookTitle : String
  lastMessage : String
  lastMessageDate : Nat
  unreadCount : Nat
  isRequest : Bool
deriving DecidableEq, Repr

/-- The conversation partner of a message from the session user's viewpoint:
the sender for incoming messages, the receiver for outgoing ones. -/
def msgPartnerId (uid : String) (msg : Message) : String :=
  if msg.receiverId == uid then msg.senderId else msg.receiverId

/-- The map entry created on first encountering a partner
(`partnersMap.set` in the fresh-partner branch). -/
def initialConv (uid : String) (msg : Message) : Conversation :=
  let isIncoming := msg.receiverId == uid
  { partnerId := msgPartnerId uid msg
    partnerName := if isIncoming then msg.senderName else "Unknown"
    bookId := msg.bookId
    bookTitle := msg.bookTitle
    lastMessage := msg.content
    lastMessageDate := msg.createdAt
    unreadCount := if isIncoming && !msg.isRead then 1 else 0
    isRequest := msg.isRequest }

/-- The in-place update applied to an existing map entry: refresh the last
message when the new timestamp is strictly greater, then bump the unread
count for an incoming unread message. -/
def updateConv (uid : String) (msg : Message) (c : Conversation) : Conversation :=
  let isIncoming := msg.receiverId == uid
  let c1 := if c.lastMessageDate < msg.createdAt then
      { c with lastMessage := msg.content, lastMessageDate := msg.createdAt }
    else c
  if isIncoming && !msg.isRead then
    { c1 with unreadCount := c1.unreadCount + 1 }
  else c1

/-- One step of the `allMessages.forEach` loop over the partner map, the map
modelled as a list of entries with pairwise distinct `partnerId`s kept in
insertion order. -/
def convStep (uid : String) (acc : List Conversation) (msg : Message) :
    List Conversation :=
  let partnerId := msgPartnerId uid msg
  if acc.any (fun c => c.partnerId == partnerId) then
    acc.map (fun c => if c.partnerId == partnerId then updateConv uid msg c else c)
  else
    acc ++ [initialConv uid msg]

/-- Model of `conversationPartners`: fold the newest-first message list into the partner
map, then sort the entries descending by last message date. -/
def conversationPartners (s : State) : List Conversation :=
  match s.currentUser with
  | none => []
  | some u =>
    sortByDesc (fun c => c.lastMessageDate)
      ((getMessagesForUser s).foldl (convStep u.id) [])

/-- The messages of `s` that involve user `uid`, in store order: the filter
underlying `getMessagesForUser` before sorting. -/
def userMessages (uid : String) (s : State) : List Message :=
  s.messages.filter (fun m => m.senderId == uid || m.receiverId == uid)

/-- The group of a conversation partner `p`: the messages of `l` whose
conversation partner is `p`. -/
def groupOf (uid p : String) (l : List Message) : List Message :=
  l.filter (fun m => msgPartnerId uid m == p)

/-- Unread tally of a message group: messages received by `uid`, not read. -/
def unreadOf (uid : String) (g : List Message) : Nat :=
  (g.filter (fun m => m.receiverId == uid && !m.isRead)).length

/-- The conversation entry determined by a group `g` whose first-processed
(newest) message is `first`. -/
def convOfGroup (uid : String) (first : Message) (g : List Message) : Conversation :=
  { partnerId := msgPartnerId uid first
    partnerName := if first.receiverId == uid then first.senderName else "Unknown"
    bookId := first.bookId
    bookTitle := first.bookTitle
    lastMessage := first.content
    lastMessageDate := first.createdAt
    unreadCount := unreadOf uid g
    isRequest := first.isRequest }

/-- Invariant of the partner-map fold after processing the message list `l`:
every entry is `convOfGroup` of its (nonempty) group headed by its
first-processed message, every processed message has an entry for its
partner, and entries have pairwise distinct partner ids. -/
def ConvInv (uid : String) (l : List Message) (acc : List Conversation) : Prop :=
  (∀ c ∈ acc, ∃ first rest, groupOf uid c.partnerId l = first :: rest ∧
      c = convOfGroup uid first (first :: rest)) ∧
  (∀ m ∈ l, ∃ c ∈ acc, c.partnerId = msgPartnerId uid m) ∧
  acc.Pairwise (fun c c' => c.partnerId ≠ c'.partnerId)

/-- A sequence of registrations run from the initial state; each operation
carries its `Date.now()` value and the submitted form data. -/
def runRegisters (ops : List (Nat × UserData)) : State :=
  ops.foldl (fun s op => (registerUser op.1 op.2 s).1) initialState

/-- Registration data reusing the seed user Jane's email. -/
def dupJaneData : UserData :=
  { name := "Jane Clone", email := "jane@example.com", password := "pw",
    phone := "000", role := .seeker }

/-- A sample book owned by the seed user John. -/
def exBookJohn : Book :=
  { id := "b1", title := "Dune", author := "Frank Herbert",
    genre := some "Sci-Fi", location := "Pune", contact := "555",
    ownerId := "1", ownerName := "John Doe", available := true,
    coverUrl := none, createdAt := 10 }

/-- A sample book owned by the seed user Jane. -/
def exBookJane : Book :=
  { id := "b2", title := "1984", author := "George Orwell",
    genre := none, location := "Mumbai", contact := "556",
    ownerId := "2", ownerName := "Jane Smith", available := true,
    coverUrl := none, createdAt := 20 }

/-- A borrow request from Jane to John about John's book. -/
def exRequest : Message :=
  { id := "m1", senderId := "2", senderName := "Jane Smith",
    receiverId := "1", bookId := "b1", bookTitle := "Dune",
    content := "interested", isRequest := true, isRead := false,
    createdAt := 50 }

/-- A state in which John is logged in, owns a book, and has received
Jane's borrow request. -/
def exStateAccept : State :=
  { users := initialUsers, books := [exBookJohn], messages := [exRequest],
    currentUser := some johnUser }

/-- A state in which John is logged in but the only book belongs to Jane. -/
def exStateNonOwner : State :=
  { users := initialUsers, books := [exBookJane], messages := [],
    currentUser := some johnUser }

/-- A state in which John is logged in and owns the only book. -/
def exStateOwner : State :=
  { users := initialUsers, books := [exBookJohn], messages := [],
    currentUser := some johnUser }

/-- An older message between Jane and John about book `b1`. -/
def exMsgOld : Message :=
  { id := "m1", senderId := "2", senderName := "Jane Smith",
    receiverId := "1", bookId := "b1", bookTitle := "Book One",
    content := "first", isRequest := true, isRead := false,
    createdAt := 100 }

/-- A newer message between Jane and John about a different book `b2`. -/
def exMsgNew : Message :=
  { id := "m2", senderId := "2", senderName := "Jane Smith",
    receiverId := "1", bookId := "b2", bookTitle := "Book Two",
    content := "second", isRequest := false, isRead := false,
    createdAt := 200 }

/-- A state in which John is logged in and one conversation partner (Jane)
has sent two messages about two different books. -/
def exStateConv : State :=
  { users := initialUsers, books := [], messages := [exMsgOld, exMsgNew],
    currentUser := some johnUser }

/-! ### General helper lemmas -/

theorem find?_eq_some_of_unique {α : Type} {p : α → Bool} {l : List α} {a : α}
    (ha : a ∈ l) (hpa : p a = true) (huniq : ∀ b ∈ l, p b = true → b = a) :
    l.find? p = some a := by
  induction l with
  | nil => cases ha
  | cons x xs ih =>
    by_cases hx : p x = true
    · have hxa : x = a := huniq x (List.mem_cons_self x xs) hx
      rw [List.find?_cons_of_pos _ hx, hxa]
    · have ha' : a ∈ xs := by
        rcases List.mem_cons.mp ha with h | h
        · exact absurd (h ▸ hpa) hx
        · exact h
      rw [List.find?_cons_of_neg _ hx]
      exact ih ha' (fun b hb hpb => huniq b (List.mem_cons_of_mem _ hb) hpb)

theorem insertByDesc_perm {α : Type} (key : α → Nat) (x : α) (l : List α) :
    (insertByDesc key x l).Perm (x :: l) := by
  induction l with
  | nil => simp [insertByDesc]
  | cons y ys ih =>
    rw [insertByDesc]
    by_cases h : key x < key y
    · simp only [h, if_true]
      exact (ih.cons y).trans (List.Perm.swap x y ys)
    · simp [h]

theorem sortByDesc_perm {α : Type} (key : α → Nat) (l : List α) :
    (sortByDesc key l).Perm l := by
  induction l with
  | nil => simp [sortByDesc]
  | cons a l ih =>
    have : sortByDesc key (a :: l) = insertByDesc key a (sortByDesc key l) := rfl
    rw [this]
    exact (insertByDesc_perm key a (sortByDesc key l)).trans (ih.cons a)

theorem insertByDesc_pairwise {α : Type} (key : α → Nat) (x : α) (l : List α)
    (h : l.Pairwise (fun a b => key b ≤ key a)) :
    (insertByDesc key x l).Pairwise (fun a b => key b ≤ key a) := by
  induction l with
  | nil => simp [insertByDesc]
  | cons y ys ih =>
    rw [insertByDesc]
    rcases List.pairwise_cons.mp h with ⟨hy, hys⟩
    by_cases hxy : key x < key y
    · simp only [hxy, if_true]
      refine List.pairwise_cons.mpr ⟨?_, ih hys⟩
      intro z hz
      rcases List.mem_cons.mp ((insertByDesc_perm key x ys).mem_iff.mp hz) with h' | h'
      · exact h' ▸ le_of_lt hxy
      · exact hy z h'
    · simp only [hxy, if_false]
      refine List.pairwise_cons.mpr ⟨?_, h⟩
      intro z hz
      rcases List.mem_cons.mp hz with h' | h'
      · exact h' ▸ le_of_not_lt hxy
      · exact le_trans (hy z h') (le_of_not_lt hxy)

theorem sortByDesc_sorted {α : Type} (key : α → Nat) (l : List α) :
    (sortByDesc key l).Pairwise (fun a b => key b ≤ key a) := by
  induction l with
  | nil => simp [sortByDesc]
  | cons a l ih => exact insertByDesc_pairwise key a (sortByDesc key l) ih

theorem startsWithL_iff (n h : List Char) : startsWithL n h = true ↔ n <+: h := by
  induction n generalizing h with
  | nil => simp [startsWithL]
  | cons a as ih =>
    cases h with
    | nil => simp [startsWithL]
    | cons b bs => simp [startsWithL, List.cons_prefix_cons, ih]

theorem containsSeq_iff (n h : List Char) : containsSeq n h = true ↔ n <:+: h := by
  induction h with
  | nil => simp [containsSeq, List.isEmpty_iff, List.infix_nil]
  | cons c r ih =>
    rw [containsSeq, List.infix_cons_iff, Bool.or_eq_true, startsWithL_iff, ih]

/-! ### Claim theorems -/

/-- C10: calling `markAsRead` with no active session returns silently, with no
error condition signaled (in particular no `Unauthenticated`), and leaves the
entire state unchanged, for every message id. -/
theorem markMessageAsRead_no_session (messageId : String) (s : State)
    (h : s.currentUser = none) : markMessageAsRead messageId s = (s, none) := by
  simp [markMessageAsRead, h]

theorem markMessageAsRead_no_session_witness :
    markMessageAsRead "m1" initialState = (initialState, none) :=
  markMessageAsRead_no_session "m1" initialState rfl

/-- C5: `toggleAvailability` fails with `Unauthenticated` when there is no
active session; with a session, when no listing with the given id is owned by
the session user, the call is an exact no-op: the state is identical and no
error is signaled. -/
theorem toggleBookAvailability_error_modes (bookId : String) (s : State) :
    (s.currentUser = none →
      toggleBookAvailability bookId s = (s, some .unauthenticated)) ∧
    (∀ u, s.currentUser = some u →
      (∀ b ∈ s.books, b.id = bookId → b.ownerId ≠ u.id) →
      toggleBookAvailability bookId s = (s, none)) := by
  constructor
  · intro h
    simp [toggleBookAvailability, h]
  · intro u hu hb
    have hmap : s.books.map (toggleStep bookId u.id) = s.books := by
      have h1 : ∀ b ∈ s.books, toggleStep bookId u.id b = id b := by
        intro b hbm
        have hcond : (b.id == bookId && b.ownerId == u.id) = false := by
          by_cases hid : b.id = bookId
          · simp [hid, hb b hbm hid]
          · simp [hid]
        simp [toggleStep, hcond]
      rw [List.map_congr_left h1, List.map_id]
    simp only [toggleBookAvailability, hu]
    rw [hmap, ← hu]

theorem toggleBookAvailability_error_modes_witness :
    toggleBookAvailability "b2" initialState =
      (initialState, some .unauthenticated) ∧
    toggleBookAvailability "b2" exStateNonOwner = (exStateNonOwner, none) :=
  ⟨(toggleBookAvailability_error_modes "b2" initialState).1 rfl,
   (toggleBookAvailability_error_modes "b2" exStateNonOwner).2 johnUser rfl
     (by decide)⟩

/-- C4: login returns success exactly when some registered user's email and
password both equal the given pair; on success the session becomes a matching
user; on failure the whole state is unchanged. -/
theorem loginUser_correct (email password : String) (s : State) :
    ((loginUser email password s).2 = true ↔
      ∃ u ∈ s.users, u.email = email ∧ u.password = password) ∧
    ((loginUser email password s).2 = true →
      ∃ u ∈ s.users, u.email = email ∧ u.password = password ∧
        (loginUser email password s).1 = { s with currentUser := some u }) ∧
    ((loginUser email password s).2 = false → (loginUser email password s).1 = s) := by
  cases hf : s.users.find? (fun u => u.email == email && u.password == password) with
  | none =>
    have hno : ¬∃ u ∈ s.users, u.email = email ∧ u.password = password := by
      rintro ⟨u, hu, he, hp⟩
      have hsome : (s.users.find?
          (fun u => u.email == email && u.password == password)).isSome = true :=
        List.find?_isSome.mpr ⟨u, hu, by simp [he, hp]⟩
      rw [hf] at hsome
      simp at hsome
    refine ⟨?_, ?_, ?_⟩
    · simp only [loginUser, hf]
      exact iff_of_false (by simp) hno
    · intro habs
      simp [loginUser, hf] at habs
    · intro _
      simp [loginUser, hf]
  | some u =>
    have hpu := List.find?_some hf
    have hmem := List.mem_of_find?_eq_some hf
    simp only [Bool.and_eq_true, beq_iff_eq] at hpu
    refine ⟨?_, ?_, ?_⟩
    · constructor
      · intro _
        exact ⟨u, hmem, hpu.1, hpu.2⟩
      · intro _
        simp [loginUser, hf]
    · intro _
      exact ⟨u, hmem, hpu.1, hpu.2, by simp [loginUser, hf]⟩
    · intro hfalse
      simp [loginUser, hf] at hfalse

theorem loginUser_correct_witness :
    (loginUser "john@example.com" "password123" initialState).2 = true ∧
    ∃ u ∈ initialState.users, u.email = "john@example.com" ∧
      u.password = "password123" ∧
      (loginUser "john@example.com" "password123" initialState).1 =
        { initialState with currentUser := some u } := by
  have h := loginUser_correct "john@example.com" "password123" initialState
  have hb : (loginUser "john@example.com" "password123" initialState).2 = true :=
    h.1.mpr ⟨johnUser, by decide, rfl, rfl⟩
  exact ⟨hb, h.2.1 hb⟩

theorem registerUser_preservesEmailNodup (now : Nat) (d : UserData) (s : State)
    (h : (s.users.map (fun u => u.email)).Nodup) :
    ((registerUser now d s).1.users.map (fun u => u.email)).Nodup := by
  by_cases hdup : s.users.any (fun u => u.email == d.email) = true
  · simp [registerUser, hdup, h]
  · have hne : ∀ u ∈ s.users, u.email ≠ d.email := by
      intro u hu heq
      exact hdup (List.any_eq_true.mpr ⟨u, hu, by simp [heq]⟩)
    simp only [registerUser, hdup, if_false, Bool.false_eq_true]
    rw [List.map_append, List.nodup_append]
    refine ⟨h, by simp, ?_⟩
    intro x hx1 hx2
    rcases List.mem_map.mp hx1 with ⟨u, hu, hux⟩
    have hxd : x = d.email := by simpa using hx2
    exact hne u hu (hux.symm ▸ hxd)

/-- C3: along every sequence of register operations from the initial state no
two users share an email, and registering a duplicate email fails with
`DuplicateEmail` and leaves the state (in particular the user set)
unchanged. -/
theorem registerUser_unique_email (ops : List (Nat × UserData)) :
    ((runRegisters ops).users.map (fun u => u.email)).Nodup ∧
    (∀ now d, (∃ u ∈ (runRegisters ops).users, u.email = d.email) →
      registerUser now d (runRegisters ops) =
        (runRegisters ops, some .duplicateEmail)) := by
  have hinv : ∀ (l : List (Nat × UserData)) (s : State),
      (s.users.map (fun u => u.email)).Nodup →
      (((l.foldl (fun s op => (registerUser op.1 op.2 s).1) s)).users.map
        (fun u => u.email)).Nodup := by
    intro l
    induction l with
    | nil => intro s h; exact h
    | cons op l ih =>
      intro s h
      exact ih _ (registerUser_preservesEmailNodup op.1 op.2 s h)
  constructor
  · exact hinv ops initialState (by decide)
  · rintro now d ⟨u, hu, he⟩
    have hany : (runRegisters ops).users.any (fun v => v.email == d.email) = true :=
      List.any_eq_true.mpr ⟨u, hu, by simp [he]⟩
    simp [registerUser, hany]

theorem registerUser_unique_email_witness :
    registerUser 0 dupJaneData (runRegisters []) =
      (runRegisters [], some .duplicateEmail) ∧
    ((runRegisters []).users.map (fun u => u.email)).Nodup :=
  ⟨(registerUser_unique_email []).2 0 dupJaneData ⟨janeUser, by decide, rfl⟩,
   (registerUser_unique_email []).1⟩

/-- C6: `deleteListing` fails with `Unauthenticated` without a session, fails
with `NotFoundOrForbidden` (state unchanged) when no listing with the given id
is owned by the session user, and on success removes exactly that listing
while leaving users, messages and the session unchanged. -/
theorem deleteBook_error_and_success (bookId : String) (s : State)
    (hnodup : (s.books.map (fun b => b.id)).Nodup) :
    (s.currentUser = none → deleteBook bookId s = (s, some .unauthenticated)) ∧
    (∀ u, s.currentUser = some u →
      (∀ b ∈ s.books, b.id = bookId → b.ownerId ≠ u.id) →
      deleteBook bookId s = (s, some .notFoundOrForbidden)) ∧
    (∀ u B l1 l2, s.currentUser = some u → s.books = l1 ++ B :: l2 →
      B.id = bookId → B.ownerId = u.id →
      deleteBook bookId s = ({ s with books := l1 ++ l2 }, none)) := by
  refine ⟨?_, ?_, ?_⟩
  · intro h
    simp [deleteBook, h]
  · intro u hu hb
    cases hf : s.books.find? (fun b => b.id == bookId) with
    | none => simp [deleteBook, hu, hf]
    | some book =>
      have hid : book.id = bookId := by simpa using List.find?_some hf
      have hmem := List.mem_of_find?_eq_some hf
      have hown : book.ownerId ≠ u.id := hb book hmem hid
      simp [deleteBook, hu, hf, hown]
  · intro u B l1 l2 hu hbooks hid hown
    have hBmem : B ∈ s.books := by
      rw [hbooks]
      exact List.mem_append_right _ (List.mem_cons_self _ _)
    have hfind : s.books.find? (fun b => b.id == bookId) = some B := by
      apply find?_eq_some_of_unique hBmem (by simp [hid])
      intro b hbm hpb
      have hbid : b.id = B.id := by
        rw [hid]
        simpa using hpb
      exact List.inj_on_of_nodup_map hnodup hbm hBmem hbid
    have hn := hnodup
    rw [hbooks, List.map_append, List.map_cons, List.nodup_append] at hn
    obtain ⟨hn1, hn2, hdisj⟩ := hn
    have hBnotl2 : B.id ∉ l2.map (fun b => b.id) := (List.nodup_cons.mp hn2).1
    have hl1 : l1.filter (fun b => b.id != bookId) = l1 := by
      rw [List.filter_eq_self]
      intro b hbm
      have hne : b.id ≠ bookId := by
        intro he
        exact hdisj (List.mem_map_of_mem _ hbm)
          (by rw [he, ← hid]; exact List.mem_cons_self _ _)
      simp [hne]
    have hl2 : l2.filter (fun b => b.id != bookId) = l2 := by
      rw [List.filter_eq_self]
      intro b hbm
      have hne : b.id ≠ bookId := by
        intro he
        exact hBnotl2 (by rw [hid, ← he]; exact List.mem_map_of_mem _ hbm)
      simp [hne]
    have hfilter : s.books.filter (fun b => b.id != bookId) = l1 ++ l2 := by
      rw [hbooks, List.filter_append, List.filter_cons, hl1, hl2]
      simp [hid]
    simp [deleteBook, hu, hfind, hown, hfilter]

theorem deleteBook_error_and_success_witness :
    deleteBook "b1" exStateOwner = ({ exStateOwner with books := [] }, none) ∧
    deleteBook "b1" initialState = (initialState, some .unauthenticated) := by
  have h1 := deleteBook_error_and_success "b1" exStateOwner (by decide)
  have h2 := deleteBook_error_and_success "b1" initialState (by decide)
  exact ⟨h1.2.2 johnUser exBookJohn [] [] rfl rfl rfl rfl, h2.1 rfl⟩

/-- C9: when the session user owns book `B`, `toggleAvailability (B.id)` only
negates `B`'s `available` field; every other field of `B`, every other book,
and the users, messages and session collections are unchanged. -/
theorem toggleBookAvailability_frame (s : State) (u : User) (B : Book)
    (l1 l2 : List Book) (bookId : String)
    (hcu : s.currentUser = some u) (hbooks : s.books = l1 ++ B :: l2)
    (hid : B.id = bookId) (hown : B.ownerId = u.id)
    (hnodup : (s.books.map (fun b => b.id)).Nodup) :
    toggleBookAvailability bookId s =
      ({ s with books :=
          l1 ++ { B with available := !B.available } :: l2 }, none) := by
  have hn := hnodup
  rw [hbooks, List.map_append, List.map_cons, List.nodup_append] at hn
  obtain ⟨hn1, hn2, hdisj⟩ := hn
  have hBnotl2 : B.id ∉ l2.map (fun b => b.id) := (List.nodup_cons.mp hn2).1
  have hB : toggleStep bookId u.id B = { B with available := !B.available } := by
    simp [toggleStep, hid, hown]
  have hl1 : l1.map (toggleStep bookId u.id) = l1 := by
    have h1 : ∀ b ∈ l1, toggleStep bookId u.id b = id b := by
      intro b hbm
      have hne : b.id ≠ bookId := by
        intro he
        exact hdisj (List.mem_map_of_mem _ hbm)
          (by rw [he, ← hid]; exact List.mem_cons_self _ _)
      simp [toggleStep, hne]
    rw [List.map_congr_left h1, List.map_id]
  have hl2 : l2.map (toggleStep bookId u.id) = l2 := by
    have h2 : ∀ b ∈ l2, toggleStep bookId u.id b = id b := by
      intro b hbm
      have hne : b.id ≠ bookId := by
        intro he
        exact hBnotl2 (by rw [hid, ← he]; exact List.mem_map_of_mem _ hbm)
      simp [toggleStep, hne]
    rw [List.map_congr_left h2, List.map_id]
  simp only [toggleBookAvailability, hcu]
  rw [hbooks, List.map_append, List.map_cons, hB, hl1, hl2]

theorem toggleBookAvailability_frame_witness :
    toggleBookAvailability "b1" exStateOwner =
      ({ exStateOwner with
          books := [{ exBookJohn with available := false }] }, none) :=
  toggleBookAvailability_frame exStateOwner johnUser exBookJohn [] [] "b1"
    rfl rfl rfl rfl (by decide)

theorem markStep_idem (messageId uid : String) (m : Message) :
    markStep messageId uid (markStep messageId uid m) = markStep messageId uid m := by
  by_cases hc : (m.id == messageId && m.receiverId == uid) = true
  · simp [markStep, hc]
  · simp [markStep, hc]

/-- C8: `markAsRead` is idempotent — calling it twice on the same message id
yields the state of calling it once — and with an active session it sets
`isRead` only on a message whose receiver is the session user; when no stored
message with that id is addressed to the session the call is a silent
no-op. -/
theorem markMessageAsRead_idem (messageId : String) (s : State) :
    markMessageAsRead messageId (markMessageAsRead messageId s).1 =
      markMessageAsRead messageId s ∧
    (∀ u, s.currentUser = some u →
      ((∀ m ∈ s.messages, m.id = messageId → m.receiverId ≠ u.id) →
        markMessageAsRead messageId s = (s, none)) ∧
      (∀ m ∈ s.messages, m.id = messageId → m.receiverId = u.id →
        { m with isRead := true } ∈ (markMessageAsRead messageId s).1.messages)) := by
  constructor
  · cases hcu : s.currentUser with
    | none => simp [markMessageAsRead, hcu]
    | some u =>
      have hmm : (s.messages.map (markStep messageId u.id)).map
          (markStep messageId u.id) = s.messages.map (markStep messageId u.id) := by
        rw [List.map_map]
        exact List.map_congr_left (fun m _ => markStep_idem messageId u.id m)
      simp only [markMessageAsRead, hcu]
      rw [hmm]
  · intro u hu
    constructor
    · intro hmsg
      have hmap : s.messages.map (markStep messageId u.id) = s.messages := by
        have h1 : ∀ m ∈ s.messages, markStep messageId u.id m = id m := by
          intro m hm
          have hcond : (m.id == messageId && m.receiverId == u.id) = false := by
            by_cases hid : m.id = messageId
            · simp [hid, hmsg m hm hid]
            · simp [hid]
          simp [markStep, hcond]
        rw [List.map_congr_left h1, List.map_id]
      simp only [markMessageAsRead, hu]
      rw [hmap, ← hu]
    · intro m hm hid hrecv
      have hstep : markStep messageId u.id m = { m with isRead := true } := by
        simp [markStep, hid, hrecv]
      simp only [markMessageAsRead, hu]
      exact hstep ▸ List.mem_map_of_mem _ hm

theorem markMessageAsRead_idem_witness :
    markMessageAsRead "m1" (markMessageAsRead "m1" exStateAccept).1 =
      markMessageAsRead "m1" exStateAccept ∧
    { exRequest with isRead := true } ∈
      (markMessageAsRead "m1" exStateAccept).1.messages := by
  have h := markMessageAsRead_idem "m1" exStateAccept
  exact ⟨h.1, (h.2 johnUser rfl).2 exRequest (by decide) rfl rfl⟩

/-- C1: with an active session, for a request message `M` stored with
`isRequest = true` and `receiverId` the session id, `acceptRequest (M.id)`
succeeds, leaves every stored book whose id is `M.bookId` with
`available = false`, and appends exactly one new message, addressed to `M`'s
original sender from the session user, with `isRequest = false` — both
effects in the same returned state. -/
theorem acceptBookRequest_transactional (now : Nat) (s : State) (u : User)
    (M : Message) (hcu : s.currentUser = some u) (hM : M ∈ s.messages)
    (hreq : M.isRequest = true) (hrecv : M.receiverId = u.id)
    (hnodup : (s.messages.map (fun m => m.id)).Nodup) :
    (acceptBookRequest now M.id s).2 = none ∧
    (∀ b ∈ (acceptBookRequest now M.id s).1.books,
      b.id = M.bookId → b.available = false) ∧
    ∃ am, (acceptBookRequest now M.id s).1.messages = s.messages ++ [am] ∧
      am.receiverId = M.senderId ∧ am.senderId = u.id ∧ am.isRequest = false := by
  have hfind : s.messages.find?
      (fun m => m.id == M.id && m.isRequest && m.receiverId == u.id) = some M := by
    apply find?_eq_some_of_unique hM (by simp [hreq, hrecv])
    intro b hb hpb
    simp only [Bool.and_eq_true, beq_iff_eq] at hpb
    exact List.inj_on_of_nodup_map hnodup hb hM hpb.1.1
  refine ⟨?_, ?_, ?_⟩
  · simp [acceptBookRequest, hcu, hfind]
  · intro b hbm hbid
    simp only [acceptBookRequest, hcu, hfind] at hbm
    rcases List.mem_map.mp hbm with ⟨b0, hb0, hb0e⟩
    by_cases hc : (b0.id == M.bookId) = true
    · rw [← hb0e]
      simp [reserveStep, hc]
    · rw [← hb0e] at hbid ⊢
      simp only [reserveStep, hc, if_false, Bool.false_eq_true] at hbid ⊢
      exact absurd hbid (by simpa using hc)
  · simp only [acceptBookRequest, hcu, hfind]
    exact ⟨_, rfl, rfl, rfl, rfl⟩

theorem acceptBookRequest_transactional_witness :
    (acceptBookRequest 99 "m1" exStateAccept).2 = none ∧
    ∃ am, (acceptBookRequest 99 "m1" exStateAccept).1.messages =
        exStateAccept.messages ++ [am] ∧
      am.receiverId = "2" ∧ am.senderId = "1" ∧ am.isRequest = false :=
  have h := acceptBookRequest_transactional 99 exStateAccept johnUser exRequest
    rfl (by decide) rfl rfl (by decide)
  ⟨h.1, h.2.2⟩

theorem searchPred_iff (q : String) (b : Book) :
    searchPred (lowerL q) b = true ↔
      (lowerL q <:+: lowerL b.title ∨ lowerL q <:+: lowerL b.author ∨
       (∃ g, b.genre = some g ∧ lowerL q <:+: lowerL g) ∨
       lowerL q <:+: lowerL b.location) := by
  cases hg : b.genre with
  | none => simp [searchPred, hg, containsSeq_iff, or_assoc]
  | some g =>
    by_cases hge : g = ""
    · subst hge
      simp only [searchPred, hg, Bool.or_eq_true, containsSeq_iff, or_assoc]
      constructor
      · intro h
        rcases h with h | h | h | h
        · exact Or.inl h
        · exact Or.inr (Or.inl h)
        · simp at h
        · exact Or.inr (Or.inr (Or.inr h))
      · intro h
        rcases h with h | h | ⟨g', hg', hinf⟩ | h
        · exact Or.inl h
        · exact Or.inr (Or.inl h)
        · have hg'' : g' = "" := (Option.some.inj hg').symm
          have hq : lowerL q = [] := by
            rw [hg''] at hinf
            exact List.infix_nil.mp hinf
          refine Or.inl ?_
          rw [hq]
          exact ⟨[], lowerL b.title, by simp⟩
        · exact Or.inr (Or.inr (Or.inr h))
    · simp [searchPred, hg, hge, containsSeq_iff, or_assoc]

/-- C7: `search (query)` returns exactly the books for which the lowercased
query is a contiguous substring of the lowercased title, author, genre (when
present) or location; it is a pure read independent of the session and
returns the matches in store (insertion) order. -/
theorem filterBooksBySearch_spec (search : String) (s : State) :
    (∀ b, b ∈ filterBooksBySearch search s ↔ b ∈ s.books ∧
      (lowerL search <:+: lowerL b.title ∨ lowerL search <:+: lowerL b.author ∨
       (∃ g, b.genre = some g ∧ lowerL search <:+: lowerL g) ∨
       lowerL search <:+: lowerL b.location)) ∧
    (filterBooksBySearch search s).Sublist s.books ∧
    filterBooksBySearch search { s with currentUser := none } =
      filterBooksBySearch search s := by
  refine ⟨?_, List.filter_sublist _, rfl⟩
  intro b
  constructor
  · intro hb
    have h := List.mem_filter.mp hb
    exact ⟨h.1, (searchPred_iff search b).mp h.2⟩
  · rintro ⟨hbm, hp⟩
    exact List.mem_filter.mpr ⟨hbm, (searchPred_iff search b).mpr hp⟩

/-! ### Conversation grouping: fold invariant -/

theorem updateConv_partnerId (uid : String) (m : Message) (c : Conversation) :
    (updateConv uid m c).partnerId = c.partnerId := by
  unfold updateConv
  by_cases h1 : c.lastMessageDate < m.createdAt <;>
    by_cases h2 : (m.receiverId == uid && !m.isRead) = true <;>
    simp [h1, h2]

theorem groupOf_append_self (uid p : String) (l : List Message) (m : Message)
    (h : msgPartnerId uid m = p) :
    groupOf uid p (l ++ [m]) = groupOf uid p l ++ [m] := by
  unfold groupOf
  rw [List.filter_append]
  simp [h]

theorem groupOf_append_other (uid p : String) (l : List Message) (m : Message)
    (h : msgPartnerId uid m ≠ p) :
    groupOf uid p (l ++ [m]) = groupOf uid p l := by
  unfold groupOf
  rw [List.filter_append]
  simp [h]

theorem initialConv_convOfGroup (uid : String) (m : Message) :
    initialConv uid m = convOfGroup uid m [m] := by
  unfold initialConv convOfGroup unreadOf
  by_cases hin : (m.receiverId == uid && !m.isRead) = true <;>
    simp [hin, msgPartnerId]

theorem updateConv_convOfGroup (uid : String) (first : Message)
    (g : List Message) (m : Message) (hle : m.createdAt ≤ first.createdAt) :
    updateConv uid m (convOfGroup uid first g) = convOfGroup uid first (g ++ [m]) := by
  have hnotlt : ¬ ((convOfGroup uid first g).lastMessageDate < m.createdAt) := by
    simpa [convOfGroup] using not_lt.mpr hle
  have hunread : unreadOf uid (g ++ [m]) =
      unreadOf uid g + (if (m.receiverId == uid && !m.isRead) = true then 1 else 0) := by
    unfold unreadOf
    rw [List.filter_append, List.length_append, List.filter_cons]
    by_cases hin : (m.receiverId == uid && !m.isRead) = true <;> simp [hin]
  unfold updateConv
  rw [if_neg hnotlt]
  by_cases hin : (m.receiverId == uid && !m.isRead) = true <;>
    simp [hin, convOfGroup, hunread]

theorem convInv_step (uid : String) (l : List Message) (m : Message)
    (acc : List Conversation)
    (hle : ∀ x ∈ l, m.createdAt ≤ x.createdAt)
    (hinv : ConvInv uid l acc) :
    ConvInv uid (l ++ [m]) (convStep uid acc m) := by
  obtain ⟨h1, h2, h3⟩ := hinv
  by_cases hany : (acc.any (fun c => c.partnerId == msgPartnerId uid m)) = true
  · have hstep : convStep uid acc m = acc.map
        (fun c => if c.partnerId == msgPartnerId uid m then updateConv uid m c else c) := by
      simp [convStep, hany]
    rw [hstep]
    refine ⟨?_, ?_, ?_⟩
    · intro c' hc'
      rcases List.mem_map.mp hc' with ⟨c, hc, hce⟩
      obtain ⟨first, rest, hg, hce2⟩ := h1 c hc
      by_cases hcp : (c.partnerId == msgPartnerId uid m) = true
      · have hcpe : c.partnerId = msgPartnerId uid m := by simpa using hcp
        have hfirstmem : first ∈ l := by
          have hf : first ∈ groupOf uid c.partnerId l := by
            rw [hg]
            exact List.mem_cons_self _ _
          exact List.mem_of_mem_filter hf
        have hle1 : m.createdAt ≤ first.createdAt := hle first hfirstmem
        have hc'p : c'.partnerId = c.partnerId := by
          rw [← hce, if_pos hcp]
          exact updateConv_partnerId uid m c
        refine ⟨first, rest ++ [m], ?_, ?_⟩
        · rw [hc'p, groupOf_append_self uid c.partnerId l m hcpe.symm, hg,
            List.cons_append]
        · rw [← hce, if_pos hcp, hce2,
            updateConv_convOfGroup uid first (first :: rest) m hle1,
            List.cons_append]
      · have hcpe : c.partnerId ≠ msgPartnerId uid m := by simpa using hcp
        have hc'c : c' = c := by rw [← hce, if_neg hcp]
        subst hc'c
        exact ⟨first, rest,
          by rw [groupOf_append_other uid c'.partnerId l m (Ne.symm hcpe), hg],
          hce2⟩
    · intro m' hm'
      rcases List.mem_append.mp hm' with hm' | hm'
      · obtain ⟨c, hc, hcp⟩ := h2 m' hm'
        refine ⟨(if c.partnerId == msgPartnerId uid m then updateConv uid m c else c),
          List.mem_map_of_mem _ hc, ?_⟩
        by_cases hb : (c.partnerId == msgPartnerId uid m) = true
        · rw [if_pos hb, updateConv_partnerId]
          exact hcp
        · rw [if_neg hb]
          exact hcp
      · have hm'm : m' = m := by simpa using hm'
        subst hm'm
        obtain ⟨c, hc, hcb⟩ := List.any_eq_true.mp hany
        refine ⟨(if c.partnerId == msgPartnerId uid m' then updateConv uid m' c else c),
          List.mem_map_of_mem _ hc, ?_⟩
        rw [if_pos hcb, updateConv_partnerId]
        simpa using hcb
    · rw [List.pairwise_map]
      refine List.Pairwise.imp ?_ h3
      intro a b hab
      by_cases ha : (a.partnerId == msgPartnerId uid m) = true <;>
        by_cases hb : (b.partnerId == msgPartnerId uid m) = true <;>
        simp [ha, hb, updateConv_partnerId, hab]
  · have hstep : convStep uid acc m = acc ++ [initialConv uid m] := by
      simp [convStep, hany]
    rw [hstep]
    have hnotin : ∀ c ∈ acc, c.partnerId ≠ msgPartnerId uid m := by
      intro c hc he
      exact hany (List.any_eq_true.mpr ⟨c, hc, by simp [he]⟩)
    have hgroupnil : groupOf uid (msgPartnerId uid m) l = [] := by
      apply List.filter_eq_nil_iff.mpr
      intro m' hm' hpm'
      have heq : msgPartnerId uid m' = msgPartnerId uid m := by simpa using hpm'
      obtain ⟨c, hc, hcp⟩ := h2 m' hm'
      exact hnotin c hc (hcp.trans heq)
    refine ⟨?_, ?_, ?_⟩
    · intro c' hc'
      rcases List.mem_append.mp hc' with hc' | hc'
      · obtain ⟨first, rest, hg, hce⟩ := h1 c' hc'
        exact ⟨first, rest,
          by rw [groupOf_append_other uid c'.partnerId l m
            (Ne.symm (hnotin c' hc')), hg],
          hce⟩
      · have hc'e : c' = initialConv uid m := by simpa using hc'
        subst hc'e
        refine ⟨m, [], ?_, ?_⟩
        · have hpid : (initialConv uid m).partnerId = msgPartnerId uid m := rfl
          rw [hpid, groupOf_append_self uid (msgPartnerId uid m) l m rfl,
            hgroupnil, List.nil_append]
        · exact initialConv_convOfGroup uid m
    · intro m' hm'
      rcases List.mem_append.mp hm' with hm' | hm'
      · obtain ⟨c, hc, hcp⟩ := h2 m' hm'
        exact ⟨c, List.mem_append_left _ hc, hcp⟩
      · have hm'm : m' = m := by simpa using hm'
        subst hm'm
        exact ⟨initialConv uid m',
          List.mem_append_right _ (List.mem_cons_self _ _), rfl⟩
    · rw [List.pairwise_append]
      refine ⟨h3, List.pairwise_singleton _ _, ?_⟩
      intro a ha b hb
      have hbe : b = initialConv uid m := by simpa using hb
      subst hbe
      exact hnotin a ha

theorem convInv_foldl (uid : String) (l : List Message)
    (hsorted : l.Pairwise (fun a b => b.createdAt ≤ a.createdAt)) :
    ConvInv uid l (l.foldl (convStep uid) []) := by
  induction l using List.reverseRecOn with
  | nil =>
    exact ⟨fun c hc => absurd hc (List.not_mem_nil c),
      fun m hm => absurd hm (List.not_mem_nil m), List.Pairwise.nil⟩
  | append_singleton l m ih =>
    rw [List.foldl_concat]
    have hs := List.pairwise_append.mp hsorted
    exact convInv_step uid l m _
      (fun x hx => hs.2.2 x hx m (List.mem_singleton.mpr rfl)) (ih hs.1)

/-- C2 (amended): with an active session, the conversation list groups the
session's messages by the other participant's id; each entry's `bookId`,
`bookTitle`, shown content and timestamp are all taken from a most-recent
message of its group (maximal `createdAt`) — not from the earliest —, the
unread count equals the number of messages in the group received by the
session with `isRead = false`, and the entries are sorted descending by
most-recent message timestamp. -/
theorem conversationPartners_spec (s : State) (u : User)
    (hcu : s.currentUser = some u) :
    (conversationPartners s).Pairwise
      (fun a b => b.lastMessageDate ≤ a.lastMessageDate) ∧
    (∀ m ∈ userMessages u.id s, ∃ c ∈ conversationPartners s,
      c.partnerId = msgPartnerId u.id m) ∧
    (∀ c ∈ conversationPartners s,
      ∃ newest ∈ groupOf u.id c.partnerId (userMessages u.id s),
        (∀ m ∈ groupOf u.id c.partnerId (userMessages u.id s),
          m.createdAt ≤ newest.createdAt) ∧
        c.bookId = newest.bookId ∧ c.bookTitle = newest.bookTitle ∧
        c.lastMessage = newest.content ∧
        c.lastMessageDate = newest.createdAt ∧
        c.unreadCount = unreadOf u.id (groupOf u.id c.partnerId (userMessages u.id s))) := by
  have hmsgs : getMessagesForUser s =
      sortByDesc (fun m => m.createdAt) (userMessages u.id s) := by
    simp [getMessagesForUser, hcu, userMessages]
  have hperm : (getMessagesForUser s).Perm (userMessages u.id s) := by
    rw [hmsgs]
    exact sortByDesc_perm _ _
  have hsorted : (getMessagesForUser s).Pairwise
      (fun a b => b.createdAt ≤ a.createdAt) := by
    rw [hmsgs]
    exact sortByDesc_sorted _ _
  obtain ⟨h1, h2, h3⟩ := convInv_foldl u.id (getMessagesForUser s) hsorted
  have hcpdef : conversationPartners s = sortByDesc (fun c => c.lastMessageDate)
      ((getMessagesForUser s).foldl (convStep u.id) []) := by
    simp [conversationPartners, hcu]
  have hcperm : (conversationPartners s).Perm
      ((getMessagesForUser s).foldl (convStep u.id) []) := by
    rw [hcpdef]
    exact sortByDesc_perm _ _
  refine ⟨?_, ?_, ?_⟩
  · rw [hcpdef]
    exact sortByDesc_sorted _ _
  · intro m hm
    obtain ⟨c, hc, hcp⟩ := h2 m (hperm.mem_iff.mpr hm)
    exact ⟨c, hcperm.mem_iff.mpr hc, hcp⟩
  · intro c hc
    obtain ⟨first, rest, hg, hce⟩ := h1 c (hcperm.mem_iff.mp hc)
    have hgperm : (groupOf u.id c.partnerId (getMessagesForUser s)).Perm
        (groupOf u.id c.partnerId (userMessages u.id s)) := hperm.filter _
    refine ⟨first, ?_, ?_, ?_, ?_, ?_, ?_, ?_⟩
    · apply hgperm.mem_iff.mp
      rw [hg]
      exact List.mem_cons_self _ _
    · intro m hm
      have hm' : m ∈ groupOf u.id c.partnerId (getMessagesForUser s) :=
        hgperm.mem_iff.mpr hm
      rw [hg] at hm'
      rcases List.mem_cons.mp hm' with he | hm''
      · exact he ▸ le_refl _
      · have hgs : (groupOf u.id c.partnerId (getMessagesForUser s)).Pairwise
            (fun a b => b.createdAt ≤ a.createdAt) :=
          List.Pairwise.sublist (List.filter_sublist _) hsorted
        rw [hg] at hgs
        exact (List.pairwise_cons.mp hgs).1 m hm''
    · rw [hce]
      rfl
    · rw [hce]
      rfl
    · rw [hce]
      rfl
    · rw [hce]
      rfl
    · have hlen : unreadOf u.id (groupOf u.id c.partnerId (getMessagesForUser s)) =
          unreadOf u.id (groupOf u.id c.partnerId (userMessages u.id s)) := by
        unfold unreadOf
        exact (hgperm.filter _).length_eq
      have hval : c.unreadCount = unreadOf u.id (first :: rest) := by
        rw [hce]
        rfl
      rw [hval, ← hg, hlen]

theorem conversationPartners_spec_witness :
    (conversationPartners exStateConv).Pairwise
      (fun a b => b.lastMessageDate ≤ a.lastMessageDate) ∧
    ∃ c ∈ conversationPartners exStateConv, c.partnerId = "2" := by
  have h := conversationPartners_spec exStateConv johnUser rfl
  refine ⟨h.1, ?_⟩
  obtain ⟨c, hc, hcp⟩ := h.2.1 exMsgOld (by decide)
  exact ⟨c, hc, hcp⟩

/-- C2 counterexample to the claim as stated: in `exStateConv` the single
conversation group (partner Jane) holds two messages, the earliest
(`createdAt = 100`) about book `b1` and the newest (`createdAt = 200`) about
book `b2`; the conversation view displays bookId `b2` / title "Book Two" —
those of the newest message, not of the earliest message as claimed. -/
theorem conversationPartners_bookId_not_earliest :
    (conversationPartners exStateConv).map (fun c => (c.bookId, c.bookTitle)) =
      [("b2", "Book Two")] ∧
    exStateConv.messages.map (fun m => (m.createdAt, m.bookId)) =
      [(100, "b1"), (200, "b2")] ∧
    ("b2" : String) ≠ "b1" := by
  refine ⟨by decide, by decide, by decide⟩

end BookShelf
